import Mathlib

/-!
# Verification of the F1 regulation-scraping pipeline

Shallow embedding of `fia-regulations-scaping.py`: the textual-number
normalizer `text_to_int`, the article segmenter `parse_regulations`, the
locator `find_tyre_article_id`, the multi-strategy field extractor
`extract_tyre_data`, and the per-year aggregation loop, together with
theorems settling the specification claims.

Text is modelled as `List Char`.  Python's regular expressions are
embedded as specialized deterministic matchers; wherever the regex engine
could backtrack, a comment argues that backtracking cannot change the
outcome (always because the character classes on the two sides of the
backtracking point are disjoint), so the deterministic maximal-munch
matcher computes exactly the Python match.  Character classes are taken
over ASCII, matching the corpus.
-/

namespace Scrape

/-- Python `\s` (ASCII range): the whitespace characters. -/
def isWS (c : Char) : Bool :=
  c == ' ' || c == '\t' || c == '\n' || c == '\r' || c == '\x0b' || c == '\x0c'

/-- Python `\d` (ASCII range). -/
def isDigitC (c : Char) : Bool :=
  c.isDigit

/-- Python `\w` (ASCII range): letters, digits and underscore. -/
def isWordC (c : Char) : Bool :=
  c.isAlphanum || c == '_'

/-- `[A-Z]` under `re.IGNORECASE`: any ASCII letter. -/
def isLetterCI (c : Char) : Bool :=
  c.isAlpha

/-- `[A-Z]` without `re.IGNORECASE`: upper-case ASCII letters only. -/
def isUpperAZ (c : Char) : Bool :=
  'A' ≤ c && c ≤ 'Z'

/-- Case-insensitive character comparison, as `re.IGNORECASE` compares. -/
def lowEq (a b : Char) : Bool :=
  a.toLower == b.toLower

/-- Drop a maximal run of whitespace (the `\s*` of the heading regexes;
maximal munch is exact because every continuation of those regexes starts
with a non-whitespace character class). -/
def dropWS : List Char → List Char
  | [] => []
  | c :: r => if isWS c then dropWS r else c :: r

/-- `\s+`: require at least one whitespace character, consume the maximal
run, return the rest.  Greedy munch is exact: each use is followed by a
literal or class that matches no whitespace character. -/
def ws1 : List Char → Option (List Char)
  | [] => none
  | c :: r => if isWS c then some (dropWS r) else none

/-- Split off the maximal run of decimal digits. -/
def spanDigits : List Char → List Char × List Char
  | [] => ([], [])
  | c :: r =>
    if isDigitC c then
      let p := spanDigits r
      (c :: p.1, p.2)
    else ([], c :: r)

/-- `(\d+)`: at least one digit, maximal run (exact: each use is followed
by a character class containing no digit). -/
def digits1 (s : List Char) : Option (List Char × List Char) :=
  match spanDigits s with
  | ([], _) => none
  | (d, r) => some (d, r)

/-- Split off the maximal run of word characters. -/
def spanWord : List Char → List Char × List Char
  | [] => ([], [])
  | c :: r =>
    if isWordC c then
      let p := spanWord r
      (c :: p.1, p.2)
    else ([], c :: r)

/-- `(\w+|\d+)`: at least one word character, maximal run.  The `\d+`
alternative of the group is redundant: every maximal `\d+` match is a
prefix of the maximal `\w+` match and is followed either by the same
character (same failure) or by a non-digit word character, which matches
none of the continuations `\s`, `\(` used after the group; likewise
giving back characters from the greedy `\w+` leaves a word character in
front, which matches none of those continuations.  So the group matches
exactly the maximal word run or fails. -/
def word1 (s : List Char) : Option (List Char × List Char) :=
  match spanWord s with
  | ([], _) => none
  | (w, r) => some (w, r)

/-- Case-insensitive literal: consume `lit` (compared with `lowEq`),
return the rest of the text. -/
def stripCI : List Char → List Char → Option (List Char)
  | [], s => some s
  | _ :: _, [] => none
  | a :: as, b :: bs => if lowEq a b then stripCI as bs else none

/-- Python's substring test `needle in hay`. -/
def containsSub (needle : List Char) : List Char → Bool
  | [] => needle.isEmpty
  | c :: rest => needle.isPrefixOf (c :: rest) || containsSub needle rest

/-- Python `text.split("\n")`. -/
def splitNL : List Char → List (List Char)
  | [] => [[]]
  | c :: rest =>
    let r := splitNL rest
    if c = '\n' then [] :: r
    else
      match r with
      | h :: t => (c :: h) :: t
      | [] => [[c]]

/-- `text_to_int`'s dictionary: words "one".."fourteen" and the digit
strings "1".."5", "8", "12", "13". -/
def numberMapping : String → Option Int
  | "one" => some 1
  | "two" => some 2
  | "three" => some 3
  | "four" => some 4
  | "five" => some 5
  | "six" => some 6
  | "seven" => some 7
  | "eight" => some 8
  | "nine" => some 9
  | "ten" => some 10
  | "eleven" => some 11
  | "twelve" => some 12
  | "thirteen" => some 13
  | "fourteen" => some 14
  | "1" => some 1
  | "2" => some 2
  | "3" => some 3
  | "4" => some 4
  | "5" => some 5
  | "8" => some 8
  | "12" => some 12
  | "13" => some 13
  | _ => none

/-- `re.sub(r"[()]", "", text).lower()`: delete parentheses, lower-case. -/
def cleanToken (s : List Char) : List Char :=
  (s.filter (fun c => !(c == '(' || c == ')'))).map Char.toLower

/-- `text_to_int`: normalize a token via the dictionary, defaulting to 0. -/
def text_to_int (s : List Char) : Int :=
  (numberMapping (String.mk (cleanToken s))).getD 0

/-!
## Heading patterns (`parse_regulations`, lines 37–42)

The two heading regexes, applied by `re.match` (anchored at the start of
the line) with `re.IGNORECASE`.

For both patterns the leading `\s*` is taken maximally without loss:
giving whitespace back would leave a whitespace character at the current
position, and every alternative that follows starts with `A`/`a`, a
digit, or `B`/`b`.
-/

/-- The numeric heading pattern
`^\s*(?:ARTICLE\s+(\d+)|(\d+)[\.\)]\s+[A-Z])` (IGNORECASE), returning the
pair of capture groups on success.  The second alternative of the
`(?:…|…)` is tried from the same position when the first fails, exactly
as the backtracking engine does. -/
def headNumericAlt (s1 : List Char) : Option (Option (List Char) × Option (List Char)) :=
  match digits1 s1 with
  | some (d, r) =>
    match r with
    | c :: r2 =>
      if c == '.' || c == ')' then
        match ws1 r2 with
        | some r3 =>
          match r3 with
          | c2 :: _ => if isLetterCI c2 then some (none, some d) else none
          | [] => none
        | none => none
      else none
    | [] => none
  | none => none

/-- The body of the numeric pattern after the leading `\s*`. -/
def headNumericMain (s1 : List Char) : Option (Option (List Char) × Option (List Char)) :=
  match stripCI "ARTICLE".data s1 with
  | some r1 =>
    match ws1 r1 with
    | some r2 =>
      match digits1 r2 with
      | some (d, _) => some (some d, none)
      | none => headNumericAlt s1
    | none => headNumericAlt s1
  | none => headNumericAlt s1

def headNumericGroups (s : List Char) : Option (Option (List Char) × Option (List Char)) :=
  headNumericMain (dropWS s)

/-- `B\d+(?:\.\d+)?` (IGNORECASE), returning the matched text (original
case).  The optional `(?:\.\d+)?` is taken greedily; nothing follows it,
so no backtracking can arise. -/
def headB : List Char → Option (List Char)
  | [] => none
  | c :: r1 =>
    if lowEq 'B' c then
      match digits1 r1 with
      | some (d, r2) =>
        match r2 with
        | '.' :: r3 =>
          match digits1 r3 with
          | some (d2, _) => some (c :: (d ++ '.' :: d2))
          | none => some (c :: d)
        | _ => some (c :: d)
      | none => none
    else none

/-- The sectioned (2026) heading pattern
`^\s*(?:ARTICLE\s+)?(B\d+(?:\.\d+)?)` (IGNORECASE) after the leading
`\s*`, returning capture group 1 on success.  The optional prefix is
tried first (greedy) and the engine falls back to not taking it, exactly
as below. -/
def head2026Main (s1 : List Char) : Option (List Char) :=
  match stripCI "ARTICLE".data s1 with
  | some r1 =>
    match ws1 r1 with
    | some r2 =>
      match headB r2 with
      | some g => some g
      | none => headB s1
    | none => headB s1
  | none => headB s1

def head2026Group (s : List Char) : Option (List Char) :=
  head2026Main (dropWS s)

/-- Outcome of one heading-line test inside the segmenter loop
(lines 54–62 of the source):
* `noMatch` — the regex did not match (the `elif` branch runs);
* `key k`  — the regex matched and `new_key` is truthy: `k` becomes the
  current article;
* `badKey` — the regex matched but `new_key` is falsy: the line is
  dropped entirely (`if new_key:` fails, and the `elif` is skipped);
* `err`    — `match.group(2)` was evaluated on the one-group 2026
  pattern: an `IndexError` escapes to the `except` handler. -/
inductive HeadResult where
  | noMatch : HeadResult
  | badKey : HeadResult
  | err : HeadResult
  | key : List Char → HeadResult
deriving DecidableEq, Repr

/-- Python truthiness of an optional string (`None` and `""` are falsy). -/
def pyTruthy : Option (List Char) → Bool
  | none => false
  | some l => !l.isEmpty

/-- `new_key = match.group(1) if match.group(1) else match.group(2)`
followed by `if new_key:`, for the year's active pattern. -/
def headResultFor (year : Int) (line : List Char) : HeadResult :=
  if year == 2026 then
    match head2026Group line with
    | none => HeadResult.noMatch
    | some g1 =>
      -- the pattern has a single group, so evaluating group(2) is an error
      if pyTruthy (some g1) then HeadResult.key g1 else HeadResult.err
  else
    match headNumericGroups line with
    | none => HeadResult.noMatch
    | some (g1, g2) =>
      match (if pyTruthy g1 then g1 else g2) with
      | some k => if k.isEmpty then HeadResult.badKey else HeadResult.key k
      | none => HeadResult.badKey

/-- Whether the year's active heading regex matches the line at all. -/
def headingMatches (year : Int) (line : List Char) : Bool :=
  if year == 2026 then (head2026Group line).isSome
  else (headNumericGroups line).isSome

/-!
## Article Segmenter (`parse_regulations`, lines 33–70)
-/

/-- Segmenter state: the insertion-ordered article dictionary and the
current article key. -/
structure SegState where
  articles : List (List Char × List Char)
  current : Option (List Char)
deriving DecidableEq, Repr

/-- `if current_article not in articles: articles[current_article] = ""`
followed by `articles[current_article] += t`: append `t` to the entry of
`k`, creating it at the end if absent.  (In the `elif` branch the key is
always already present — it was installed by the heading branch that set
`current_article` — so the same operation also models the bare
`articles[current_article] += line + "\n"` there.) -/
def appendArticle (k : List Char) (t : List Char) : List (List Char × List Char) → List (List Char × List Char)
  | [] => [(k, t)]
  | (k1, t1) :: rest =>
    if k1 = k then (k1, t1 ++ t) :: rest else (k1, t1) :: appendArticle k t rest

/-- One iteration of `for line in text.split("\n")`; `none` propagates an
uncaught exception (the `IndexError` of `HeadResult.err`). -/
def segLine (year : Int) (st : SegState) (line : List Char) : Option SegState :=
  match headResultFor year line with
  | HeadResult.key k =>
    some { articles := appendArticle k (line ++ ['\n']) st.articles, current := some k }
  | HeadResult.badKey => some st
  | HeadResult.err => none
  | HeadResult.noMatch =>
    match st.current with
    | some c => some { st with articles := appendArticle c (line ++ ['\n']) st.articles }
    | none => some st

def segLines (year : Int) (st : SegState) : List (List Char) → Option SegState
  | [] => some st
  | l :: ls =>
    match segLine year st l with
    | some st1 => segLines year st1 ls
    | none => none

/-- The lines a page contributes: `extract_text()` returning `None` or a
falsy (empty) string is skipped (`if not text: continue`); otherwise the
text is split on newlines. -/
def pageLines : Option (List Char) → List (List Char)
  | none => []
  | some t => if t.isEmpty then [] else splitNL t

def segPages (year : Int) (st : SegState) : List (Option (List Char)) → Option SegState
  | [] => some st
  | p :: ps =>
    match segLines year st (pageLines p) with
    | some st1 => segPages year st1 ps
    | none => none

/-- All lines of a document in order. -/
def docLines (pages : List (Option (List Char))) : List (List Char) :=
  (pages.map pageLines).flatten

/-- `parse_regulations`.  The document is `none` when `pdfplumber.open`
or the page iteration fails at the document boundary; any exception —
including one raised inside the loop — is caught by the `except` handler,
which returns the empty dictionary. -/
def parse_regulations (year : Int) (doc : Option (List (Option (List Char)))) : List (List Char × List Char) :=
  match doc with
  | none => []
  | some pages =>
    match segPages year { articles := [], current := none } pages with
    | some st => st.articles
    | none => []

/-!
## Article Locator (`find_tyre_article_id`, lines 75–81)
-/

def tyreKeywords : List (List Char) :=
  ["supply of tyres".data, "quantity of tyres".data, "use of tyres".data]

/-- `content[:1000].lower()`. -/
def headerOf (content : List Char) : List Char :=
  (content.take 1000).map Char.toLower

/-- `find_tyre_article_id`: first entry, in insertion order, whose header
contains one of the keywords. -/
def find_tyre_article_id : List (List Char × List Char) → Option (List Char)
  | [] => none
  | (art_id, content) :: rest =>
    if tyreKeywords.any (fun k => containsSub k (headerOf content)) then some art_id
    else find_tyre_article_id rest

/-- Python `regs[tyre_id]`: dictionary lookup (the locator only returns
keys present in the dictionary, so the `KeyError` case never arises). -/
def lookupArticle : List (List Char × List Char) → List Char → Option (List Char)
  | [], _ => none
  | (k1, t1) :: rest, k => if k1 = k then some t1 else lookupArticle rest k

/-!
## Field Extractor (`extract_tyre_data`, lines 86–129)

`re.search` is embedded as `searchOpt attempt`: the attempt function is
tried at every start position from the left, the first success wins —
exactly the engine's behaviour.
-/

def searchOpt {α : Type} (attempt : List Char → Option α) : List Char → Option α
  | [] => attempt []
  | c :: rest =>
    match attempt (c :: rest) with
    | some v => some v
    | none => searchOpt attempt rest

/-- `(?:\s*\(\d+\))`: skip whitespace, then a parenthesized digit group.
Maximal whitespace munch is exact: the next pattern character is the
literal `(`, which is not whitespace. -/
def parenGroup (r : List Char) : Option (List Char) :=
  match dropWS r with
  | '(' :: r2 =>
    match digits1 r2 with
    | some (_, r3) =>
      match r3 with
      | ')' :: r4 => some r4
      | _ => none
    | none => none
  | _ => none

/-- `\s+lit`. -/
def wsThenLit (lit : List Char) (r : List Char) : Bool :=
  match ws1 r with
  | some r2 => (stripCI lit r2).isSome
  | none => false

/-- `(?:\s*\(\d+\))?\s+lit`: the engine first takes the optional group
and, if the continuation then fails, backtracks to not taking it — the
`||` below reproduces that order (the result is a bare success flag, so
the order only matters for parity with the engine). -/
def tailAfterValue (lit : List Char) (r : List Char) : Bool :=
  (match parenGroup r with
   | some r4 => wsThenLit lit r4
   | none => false) || wsThenLit lit r

/-- `lit1\s+lit2\s+…\s+litn` for a sequence of case-insensitive literal
words (no trailing whitespace after the last). -/
def litSeq : List (List Char) → List Char → Option (List Char)
  | [], s => some s
  | [w] , s => stripCI w s
  | w :: ws, s =>
    match stripCI w s with
    | some r1 =>
      match ws1 r1 with
      | some r2 => litSeq ws r2
      | none => none
    | none => none

/-- Attempt of `must\s+use\s+at\s+least\s+(\w+|\d+)(?:\s*\(\d+\))?\s+different`
at one position, returning group 1. -/
def attemptUsage (s : List Char) : Option (List Char) := do
  let r1 ← litSeq ["must".data, "use".data, "at".data, "least".data] s
  let r2 ← ws1 r1
  let (w, r3) ← word1 r2
  if tailAfterValue "different".data r3 then some w else none

/-- Attempt of Strategy A `allocated\s+(\w+|\d+)(?:\s*\(\d+\))?\s+sets`. -/
def attemptAllocA (s : List Char) : Option (List Char) := do
  let r1 ← stripCI "allocated".data s
  let r2 ← ws1 r1
  let (w, r3) ← word1 r2
  if tailAfterValue "sets".data r3 then some w else none

/-- Attempt of Strategy B `use\s+no\s+more\s+than\s+(\w+|\d+)\s+sets`. -/
def attemptAllocB (s : List Char) : Option (List Char) := do
  let r1 ← litSeq ["use".data, "no".data, "more".data, "than".data] s
  let r2 ← ws1 r1
  let (w, r3) ← word1 r2
  if wsThenLit "sets".data r3 then some w else none

/-- `(\w+|\d+)(?:\s*\(\d+\))?\s+sets` at one position (the part of
Strategy C after the lazy gap). -/
def valuePartSets (s : List Char) : Option (List Char) := do
  let (w, r) ← word1 s
  if tailAfterValue "sets".data r then some w else none

/-- The lazy gap `.*?` of Strategy C: try the continuation at each
position, shortest gap first — if the continuation fails the engine
extends the gap by one character, i.e. moves to the next position. -/
def allocCScan : List Char → Option (List Char)
  | [] => none
  | c :: rest =>
    match valuePartSets (c :: rest) with
    | some w => some w
    | none => allocCScan rest

/-- Attempt of Strategy C `allocated\s+.*?(\w+|\d+)(?:\s*\(\d+\))?\s+sets`
(DOTALL, so the gap spans newlines — which a `List Char` gap does).
Backtracking the `\s+` before the gap never helps: it only offers gap
start positions that sit on a whitespace character, where `\w+` cannot
start, and every later position is already tried by the scan. -/
def attemptAllocC (s : List Char) : Option (List Char) := do
  let r1 ← stripCI "allocated".data s
  let r2 ← ws1 r1
  allocCScan r2

/-- Attempt of `Unless\s+he\s+has\s+used\s+intermediate\s+or\s+wet-weather\s+tyres`
(the `-` of `wet-weather` is a literal character inside the word). -/
def attemptWet (s : List Char) : Option (List Char) :=
  litSeq ["unless".data, "he".data, "has".data, "used".data, "intermediate".data,
          "or".data, "wet-weather".data, "tyres".data] s

/-- A chunk of the Q2 pattern separated by a lazy `.*?` gap: try the
chunk at each position (shortest gap first) and on success run the
continuation; if the continuation fails, extend the gap — i.e. keep
scanning.  This is the full backtracking behaviour of `.*?`. -/
def scanChunk {α : Type} (chunk : List Char → Option α) (k : α → Bool) : List Char → Bool
  | [] =>
    (match chunk [] with
     | some v => k v
     | none => false)
  | c :: rest =>
    (match chunk (c :: rest) with
     | some v => k v
     | none => false) || scanChunk chunk k rest

def chunkStartRace (s : List Char) : Option (List Char) :=
  litSeq ["start".data, "the".data, "race".data] s

def chunkFastestTime (s : List Char) : Option (List Char) :=
  litSeq ["fastest".data, "time".data] s

/-- `during\s+(?:Q2|the\s+second\s+period)` (left alternative first). -/
def chunkDuring (s : List Char) : Option (List Char) := do
  let r1 ← stripCI "during".data s
  let r2 ← ws1 r1
  match stripCI "Q2".data r2 with
  | some r3 => some r3
  | none => litSeq ["the".data, "second".data, "period".data] r2

/-- `re.search` of
`start\s+the\s+race.*?tyres.*?fastest\s+time.*?during\s+(?:Q2|the\s+second\s+period)`
(IGNORECASE, DOTALL). -/
def q2Search (text : List Char) : Bool :=
  scanChunk chunkStartRace
    (fun r1 => scanChunk (stripCI "tyres".data)
      (fun r2 => scanChunk chunkFastestTime
        (fun r3 => scanChunk chunkDuring (fun _ => true) r3) r2) r1) text

/-- The `data` dictionary built by `extract_tyre_data`. -/
structure TyreConstraints where
  mandatory_dry_compounds : Int
  total_sets_allocated : Int
  wet_race_exception : Bool
  q2_start_tyre_rule : Bool
deriving DecidableEq, Repr

/-- The three allocation strategies, in the order of `alloc_patterns`. -/
def allocPatterns : List (List Char → Option (List Char)) :=
  [searchOpt attemptAllocA, searchOpt attemptAllocB, searchOpt attemptAllocC]

/-- The `for p in alloc_patterns` loop: the first pattern whose first
match normalizes to a positive value wins (`break`); a match normalizing
to 0 falls through to the next pattern; the field stays 0 otherwise. -/
def allocLoop : List (List Char → Option (List Char)) → List Char → Int
  | [], _ => 0
  | p :: ps, text =>
    match p text with
    | some g => if text_to_int g > 0 then text_to_int g else allocLoop ps text
    | none => allocLoop ps text

/-- `extract_tyre_data`. -/
def extract_tyre_data (article_text : List Char) : TyreConstraints :=
  { mandatory_dry_compounds :=
      match searchOpt attemptUsage article_text with
      | some w => text_to_int w
      | none => 0,
    total_sets_allocated := allocLoop allocPatterns article_text,
    wet_race_exception := (searchOpt attemptWet article_text).isSome,
    q2_start_tyre_rule := q2Search article_text }

/-!
## Aggregation (`full_database` loop, lines 134–154)
-/

/-- One entry of `full_database`: the extractor's record with the
`source_article` key the loop adds. -/
structure DBRecord where
  mandatory_dry_compounds : Int
  total_sets_allocated : Int
  wet_race_exception : Bool
  q2_start_tyre_rule : Bool
  source_article : List Char
deriving DecidableEq, Repr

def mkRecord (c : TyreConstraints) (tid : List Char) : DBRecord :=
  { mandatory_dry_compounds := c.mandatory_dry_compounds,
    total_sets_allocated := c.total_sets_allocated,
    wet_race_exception := c.wet_race_exception,
    q2_start_tyre_rule := c.q2_start_tyre_rule,
    source_article := tid }

/-- The main loop over `REGULATION_FILES`: returns the database (keyed by
`str(year)`, in insertion order) and the list of years for which the
zero-allocation validation warning was printed. -/
def processFiles : List (Int × Option (List (Option (List Char)))) → List (String × DBRecord) × List String
  | [] => ([], [])
  | (year, doc) :: rest =>
    let regs := parse_regulations year doc
    let tail := processFiles rest
    match find_tyre_article_id regs with
    | some tid =>
      match lookupArticle regs tid with
      | some content =>
        let c := extract_tyre_data content
        ((toString year, mkRecord c tid) :: tail.1,
         (if c.total_sets_allocated = 0 then [toString year] else []) ++ tail.2)
      | none => tail
    | none => tail

/-!
## Specification-side definitions

These state, in the spec's own terms, what the claims assert; the claim
theorems compare them with the definitions above, which are translated
from the source.
-/

/-- Claim C1's description of the allocation result: try the three
strategies in the fixed order (a), (b), (c); the result is the
normalized value of the first whose match normalizes to a positive
integer, zero-normalizing matches being skipped; 0 if none qualifies. -/
def firstPositiveAlloc (text : List Char) : Int :=
  ((([searchOpt attemptAllocA text, searchOpt attemptAllocB text,
      searchOpt attemptAllocC text].filterMap id).map text_to_int).filter
    (fun v => decide (0 < v))).headD 0

/-- The Locator's match condition as the spec words it: one of the fixed
keywords occurs as a contiguous substring of the first 1000 characters of
the article's text, lower-cased. -/
def keywordHitProp (content : List Char) : Prop :=
  ∃ kw ∈ tyreKeywords, kw <:+: headerOf content

/-- The numeric heading form as claim C4 states it: optional leading
whitespace, then either `ARTICLE` (case-insensitive) + whitespace +
digits, or a digit group + period/parenthesis + whitespace + an
upper-case word ("case-insensitivity applies only to the ARTICLE
keyword"). -/
def specNumericHeadingStrict (line : List Char) : Bool :=
  (match stripCI "ARTICLE".data (dropWS line) with
   | some r1 =>
     match ws1 r1 with
     | some r2 => (digits1 r2).isSome
     | none => false
   | none => false) ||
  (match digits1 (dropWS line) with
   | some (_, r) =>
     match r with
     | c :: r2 =>
       (c == '.' || c == ')') &&
         (match ws1 r2 with
          | some (c2 :: _) => isUpperAZ c2
          | some [] => false
          | none => false)
     | [] => false
   | none => false)

/-- The numeric heading form with case-insensitivity applying to the
whole pattern (the amended claim C4): the line decomposes into optional
leading whitespace followed by either branch, the word after the digit
group beginning with a letter of either case. -/
def specNumericHeadingCI (line : List Char) : Prop :=
  (∃ w a u d rest, line = w ++ a ++ u ++ d ++ rest ∧
      (∀ c ∈ w, isWS c = true) ∧ a.map Char.toLower = "article".data ∧
      u ≠ [] ∧ (∀ c ∈ u, isWS c = true) ∧ d ≠ [] ∧ (∀ c ∈ d, isDigitC c = true)) ∨
  (∃ w d p u c0 rest, line = w ++ d ++ p :: (u ++ c0 :: rest) ∧
      (∀ c ∈ w, isWS c = true) ∧ d ≠ [] ∧ (∀ c ∈ d, isDigitC c = true) ∧
      (p = '.' ∨ p = ')') ∧ u ≠ [] ∧ (∀ c ∈ u, isWS c = true) ∧
      isLetterCI c0 = true)

/-- The article a line is attributed to, claim C5's terms: a heading line
is attributed to its own key; a non-heading line to the current article,
if any; lines matched with a falsy key and lines with no current article
to none.  `contribs year k cur lines` lists, in document order, the
`line + "\n"` contributions attributed to `k`, starting from current
article `cur`. -/
def contribs (year : Int) (k : List Char) (cur : Option (List Char)) : List (List Char) → List (List Char)
  | [] => []
  | line :: rest =>
    match headResultFor year line with
    | HeadResult.key k1 =>
      (if k1 = k then [line ++ ['\n']] else []) ++ contribs year k (some k1) rest
    | HeadResult.noMatch =>
      match cur with
      | some c => (if c = k then [line ++ ['\n']] else []) ++ contribs year k cur rest
      | none => contribs year k cur rest
    | HeadResult.badKey => contribs year k cur rest
    | HeadResult.err => contribs year k cur rest

/-- Combine an article's pre-existing text with later contributions
(absent and never-contributed stays absent). -/
def mergeTexts (o : Option (List Char)) (ls : List (List Char)) : Option (List Char) :=
  match o with
  | some t => some (t ++ ls.flatten)
  | none =>
    match ls with
    | [] => none
    | l :: ls1 => some ((l :: ls1).flatten)

/-- Total version of `segLines` (the exception branch is unreachable:
see `headResult_cases`), used to state accumulation results. -/
def segLineT (year : Int) (st : SegState) (line : List Char) : SegState :=
  (segLine year st line).getD st

def segLinesT (year : Int) (st : SegState) : List (List Char) → SegState
  | [] => st
  | l :: ls => segLinesT year (segLineT year st l) ls

/-- Run the segmenter loop from the initial state on a line sequence. -/
def runSeg (year : Int) (lines : List (List Char)) : List (List Char × List Char) :=
  match segLines year { articles := [], current := none } lines with
  | some st => st.articles
  | none => []

/-!
## Lemmas
-/

lemma allocLoop_eq_filter (ps : List (List Char → Option (List Char))) (text : List Char) :
    allocLoop ps text =
      ((((ps.map (fun p => p text)).filterMap id).map text_to_int).filter
        (fun v => decide (0 < v))).headD 0 := by
  induction ps with
  | nil => rfl
  | cons p ps ih =>
    simp only [allocLoop, List.map_cons, List.filterMap_cons]
    cases h : p text with
    | none => simpa using ih
    | some g =>
      simp only [id, List.map_cons, List.filter_cons]
      by_cases hpos : 0 < text_to_int g
      · simp [hpos, gt_iff_lt, List.headD]
      · simp [hpos, gt_iff_lt, ih]

lemma numberMapping_bounds (s : String) :
    ∀ v, numberMapping s = some v → 0 ≤ v ∧ v ≤ 14 := by
  intro v h
  unfold numberMapping at h
  split at h <;> simp_all <;> omega

lemma text_to_int_bounds (s : List Char) :
    0 ≤ text_to_int s ∧ text_to_int s ≤ 14 := by
  unfold text_to_int
  cases h : numberMapping (String.mk (cleanToken s)) with
  | none => simp
  | some v => simpa using numberMapping_bounds _ v h

lemma allocLoop_bounds (ps : List (List Char → Option (List Char))) (text : List Char) :
    0 ≤ allocLoop ps text ∧ allocLoop ps text ≤ 14 := by
  induction ps with
  | nil => simp [allocLoop]
  | cons p ps ih =>
    simp only [allocLoop]
    cases p text with
    | none => exact ih
    | some g =>
      by_cases hpos : text_to_int g > 0
      · simpa [hpos] using text_to_int_bounds g
      · simpa [hpos] using ih

lemma searchOpt_skip {α : Type} (attempt : List Char → Option α) (pre rest : List Char)
    (h : ∀ n, n < pre.length → attempt (pre.drop n ++ rest) = none) :
    searchOpt attempt (pre ++ rest) = searchOpt attempt rest := by
  induction pre with
  | nil => rfl
  | cons c pre ih =>
    have h0 := h 0 (by simp)
    simp only [List.drop_zero, List.cons_append] at h0
    show searchOpt attempt (c :: (pre ++ rest)) = _
    rw [searchOpt, h0]
    exact ih (fun n hn => by simpa using h (n + 1) (by simpa using hn))

lemma searchOpt_of_attempt {α : Type} (attempt : List Char → Option α) (s : List Char) (v : α)
    (h : attempt s = some v) : searchOpt attempt s = some v := by
  cases s with
  | nil => simpa [searchOpt] using h
  | cons c r => rw [searchOpt, h]

lemma attemptAllocA_word_sets (post : List Char) :
    attemptAllocA ("allocated thirteen (13) sets".data ++ post) = some "thirteen".data := rfl

lemma attemptAllocA_digit_sets (post : List Char) :
    attemptAllocA ("allocated 13 sets".data ++ post) = some "13".data := rfl

lemma spanDigits_mem : ∀ (s : List Char), ∀ c ∈ (spanDigits s).1, isDigitC c = true := by
  intro s
  induction s with
  | nil => simp [spanDigits]
  | cons a r ih =>
    by_cases h : isDigitC a
    · simp only [spanDigits, h, if_pos]
      intro c hc
      rcases List.mem_cons.mp hc with rfl | hc
      · exact h
      · exact ih c hc
    · simp [spanDigits, h]

lemma digits1_some {s d r : List Char} (h : digits1 s = some (d, r)) :
    d ≠ [] ∧ ∀ c ∈ d, isDigitC c = true := by
  unfold digits1 at h
  split at h
  · exact absurd h (by simp)
  · next heq =>
    rw [Option.some.injEq, Prod.mk.injEq] at h
    obtain ⟨rfl, rfl⟩ := h
    refine ⟨by simp_all, ?_⟩
    have := spanDigits_mem s
    rw [heq] at this
    exact this

lemma headB_some {r g : List Char} (h : headB r = some g) : g ≠ [] := by
  unfold headB at h
  repeat' split at h
  all_goals first
  | exact Option.noConfusion h
  | (rw [Option.some.injEq] at h
     intro hg
     rw [hg] at h
     exact List.cons_ne_nil _ _ h)

lemma head2026Main_some {s1 g : List Char} (h : head2026Main s1 = some g) : g ≠ [] := by
  unfold head2026Main at h
  split at h
  · split at h
    · split at h
      · next g0 heq =>
        rw [Option.some.injEq] at h
        subst h
        exact headB_some heq
      · exact headB_some h
    · exact headB_some h
  · exact headB_some h

lemma head2026Group_some {s g : List Char} (h : head2026Group s = some g) : g ≠ [] :=
  head2026Main_some h

lemma headNumericAlt_some {s1 : List Char} {p : Option (List Char) × Option (List Char)}
    (h : headNumericAlt s1 = some p) :
    ∃ d, p = (none, some d) ∧ d ≠ [] ∧ ∀ c ∈ d, isDigitC c = true := by
  unfold headNumericAlt at h
  split at h
  · next d r heq =>
    split at h
    · split at h
      · split at h
        · split at h
          · split at h
            · rw [Option.some.injEq] at h
              exact ⟨d, h.symm, digits1_some heq⟩
            · exact absurd h (by simp)
          · exact absurd h (by simp)
        · exact absurd h (by simp)
      · exact absurd h (by simp)
    · exact absurd h (by simp)
  · exact absurd h (by simp)

lemma headNumericMain_some {s1 : List Char} {g1 g2 : Option (List Char)}
    (h : headNumericMain s1 = some (g1, g2)) :
    ∃ d, d ≠ [] ∧ (∀ c ∈ d, isDigitC c = true) ∧
      ((g1 = some d ∧ g2 = none) ∨ (g1 = none ∧ g2 = some d)) := by
  unfold headNumericMain at h
  split at h
  · split at h
    · split at h
      · next d r heq =>
        rw [Option.some.injEq, Prod.mk.injEq] at h
        obtain ⟨h1, h2⟩ := h
        obtain ⟨hne, hdig⟩ := digits1_some heq
        exact ⟨d, hne, hdig, Or.inl ⟨h1.symm, h2.symm⟩⟩
      · obtain ⟨d, hp, hne, hdig⟩ := headNumericAlt_some h
        rw [Prod.mk.injEq] at hp
        exact ⟨d, hne, hdig, Or.inr ⟨hp.1, hp.2⟩⟩
    · obtain ⟨d, hp, hne, hdig⟩ := headNumericAlt_some h
      rw [Prod.mk.injEq] at hp
      exact ⟨d, hne, hdig, Or.inr ⟨hp.1, hp.2⟩⟩
  · obtain ⟨d, hp, hne, hdig⟩ := headNumericAlt_some h
    rw [Prod.mk.injEq] at hp
    exact ⟨d, hne, hdig, Or.inr ⟨hp.1, hp.2⟩⟩

lemma headNumericGroups_some {s : List Char} {g1 g2 : Option (List Char)}
    (h : headNumericGroups s = some (g1, g2)) :
    ∃ d, d ≠ [] ∧ (∀ c ∈ d, isDigitC c = true) ∧
      ((g1 = some d ∧ g2 = none) ∨ (g1 = none ∧ g2 = some d)) :=
  headNumericMain_some h

/-- The segmenter's key extraction never takes the `badKey` or `err`
branch: every heading match produces a non-empty key. -/
lemma headResult_cases (year : Int) (line : List Char) :
    headResultFor year line = HeadResult.noMatch ∨
      ∃ k, headResultFor year line = HeadResult.key k ∧ k ≠ [] := by
  unfold headResultFor
  by_cases hy : year == 2026
  · simp only [hy, if_pos]
    cases h : head2026Group line with
    | none => exact Or.inl rfl
    | some g =>
      have hne := head2026Group_some h
      refine Or.inr ⟨g, ?_, hne⟩
      simp [pyTruthy, hne]
  · simp only [hy, if_neg, Bool.false_eq_true, reduceIte]
    cases h : headNumericGroups line with
    | none => exact Or.inl rfl
    | some p =>
      obtain ⟨g1, g2⟩ := p
      obtain ⟨d, hne, _, hcase | hcase⟩ := headNumericGroups_some h
      · obtain ⟨rfl, rfl⟩ := hcase
        refine Or.inr ⟨d, ?_, hne⟩
        simp [pyTruthy, hne]
      · obtain ⟨rfl, rfl⟩ := hcase
        refine Or.inr ⟨d, ?_, hne⟩
        simp [pyTruthy, hne]

lemma segLines_append (year : Int) (l1 l2 : List (List Char)) :
    ∀ st, segLines year st (l1 ++ l2) =
      (segLines year st l1).bind (fun st1 => segLines year st1 l2) := by
  induction l1 with
  | nil => intro st; rfl
  | cons l ls ih =>
    intro st
    show segLines year st (l :: (ls ++ l2)) = _
    rw [segLines, segLines]
    cases segLine year st l with
    | none => rfl
    | some st1 => exact ih st1

lemma segPages_eq_docLines (year : Int) (pages : List (Option (List Char))) :
    ∀ st, segPages year st pages = segLines year st (docLines pages) := by
  induction pages with
  | nil => intro st; rfl
  | cons p ps ih =>
    intro st
    show segPages year st (p :: ps) = segLines year st (docLines (p :: ps))
    have hdoc : docLines (p :: ps) = pageLines p ++ docLines ps := by
      simp [docLines]
    rw [hdoc, segLines_append, segPages]
    cases segLines year st (pageLines p) with
    | none => rfl
    | some st1 => exact ih st1

lemma headingMatches_false_noMatch {year : Int} {line : List Char}
    (h : headingMatches year line = false) :
    headResultFor year line = HeadResult.noMatch := by
  unfold headingMatches at h
  unfold headResultFor
  by_cases hy : year == 2026
  · rw [if_pos hy] at h
    rw [if_pos hy]
    cases hg : head2026Group line with
    | none => rfl
    | some g => rw [hg] at h; simp at h
  · rw [if_neg hy] at h
    rw [if_neg hy]
    cases hg : headNumericGroups line with
    | none => rfl
    | some p => rw [hg] at h; simp at h

lemma segLines_dropWhile_start (year : Int) (lines : List (List Char))
    (arts : List (List Char × List Char)) :
    segLines year { articles := arts, current := none } lines =
      segLines year { articles := arts, current := none }
        (lines.dropWhile (fun l => !headingMatches year l)) := by
  induction lines with
  | nil => rfl
  | cons l ls ih =>
    cases h : headingMatches year l with
    | true =>
      rw [List.dropWhile_cons]
      simp [h]
    | false =>
      rw [List.dropWhile_cons]
      simp only [h, Bool.not_false, if_pos]
      have hstep : segLine year { articles := arts, current := none } l =
          some { articles := arts, current := none } := by
        unfold segLine
        rw [headingMatches_false_noMatch h]
      rw [segLines, hstep]
      exact ih

lemma lookupArticle_appendArticle_self (k t : List Char) :
    ∀ arts, lookupArticle (appendArticle k t arts) k =
      some ((lookupArticle arts k).getD [] ++ t) := by
  intro arts
  induction arts with
  | nil => simp [appendArticle, lookupArticle]
  | cons p rest ih =>
    obtain ⟨k1, t1⟩ := p
    by_cases h : k1 = k
    · subst h
      simp [appendArticle, lookupArticle]
    · simp [appendArticle, lookupArticle, h, ih]

lemma lookupArticle_appendArticle_other {kq ka : List Char} (t : List Char) (h : kq ≠ ka) :
    ∀ arts, lookupArticle (appendArticle ka t arts) kq = lookupArticle arts kq := by
  intro arts
  have hne : ¬ka = kq := fun hq => h hq.symm
  induction arts with
  | nil => simp [appendArticle, lookupArticle, hne]
  | cons p rest ih =>
    obtain ⟨k1, t1⟩ := p
    by_cases h1 : k1 = ka
    · subst h1
      simp [appendArticle, lookupArticle, hne]
    · simp [appendArticle, lookupArticle, h1, ih]

lemma segLine_eq_some (year : Int) (st : SegState) (line : List Char) :
    segLine year st line = some (segLineT year st line) := by
  unfold segLineT
  rcases headResult_cases year line with h | ⟨k, h, _⟩
  · cases hc : st.current <;> simp [segLine, h, hc]
  · simp [segLine, h]

lemma segLines_eq_total (year : Int) (lines : List (List Char)) :
    ∀ st, segLines year st lines = some (segLinesT year st lines) := by
  induction lines with
  | nil => intro st; rfl
  | cons l ls ih =>
    intro st
    rw [segLines, segLine_eq_some]
    exact ih (segLineT year st l)

lemma seg_accum (year : Int) (k : List Char) (lines : List (List Char)) :
    ∀ st, lookupArticle (segLinesT year st lines).articles k =
      mergeTexts (lookupArticle st.articles k) (contribs year k st.current lines) := by
  induction lines with
  | nil =>
    intro st
    show lookupArticle st.articles k = mergeTexts (lookupArticle st.articles k) []
    cases lookupArticle st.articles k <;> simp [mergeTexts]
  | cons l ls ih =>
    intro st
    show lookupArticle (segLinesT year (segLineT year st l) ls).articles k = _
    rw [ih (segLineT year st l)]
    rcases headResult_cases year l with h | ⟨k1, h, _⟩
    · cases hc : st.current with
      | none =>
        have hstep : segLineT year st l = st := by
          simp [segLineT, segLine, h, hc]
        rw [hstep, hc]
        simp only [contribs, h, hc]
      | some c =>
        have hstep : segLineT year st l =
            { st with articles := appendArticle c (l ++ ['\n']) st.articles } := by
          simp [segLineT, segLine, h, hc]
        rw [hstep]
        by_cases hck : c = k
        · subst hck
          show mergeTexts (lookupArticle (appendArticle c (l ++ ['\n']) st.articles) c) _ = _
          rw [lookupArticle_appendArticle_self]
          simp only [contribs, h, hc, if_pos]
          cases lookupArticle st.articles c <;>
            simp [mergeTexts, List.append_assoc]
        · show mergeTexts (lookupArticle (appendArticle c (l ++ ['\n']) st.articles) k) _ = _
          rw [lookupArticle_appendArticle_other _ (fun hq => hck hq.symm)]
          simp only [contribs, h, hc, if_neg hck]
          simp
    · have hstep : segLineT year st l =
          { articles := appendArticle k1 (l ++ ['\n']) st.articles, current := some k1 } := by
        simp [segLineT, segLine, h]
      rw [hstep]
      by_cases hk : k1 = k
      · subst hk
        show mergeTexts (lookupArticle (appendArticle k1 (l ++ ['\n']) st.articles) k1) _ = _
        rw [lookupArticle_appendArticle_self]
        simp only [contribs, h, if_pos]
        cases lookupArticle st.articles k1 <;>
          simp [mergeTexts, List.append_assoc]
      · show mergeTexts (lookupArticle (appendArticle k1 (l ++ ['\n']) st.articles) k) _ = _
        rw [lookupArticle_appendArticle_other _ (fun hq => hk hq.symm)]
        simp only [contribs, h, if_neg hk]
        simp

lemma containsSub_iff (n : List Char) : ∀ h, containsSub n h = true ↔ n <:+: h := by
  intro h
  induction h with
  | nil => simp [containsSub, List.infix_nil, List.isEmpty_iff]
  | cons c rest ih =>
    simp [containsSub, List.isPrefixOf_iff_prefix, ih, List.infix_cons_iff]

lemma keywordTest_iff (content : List Char) :
    tyreKeywords.any (fun kw => containsSub kw (headerOf content)) = true ↔
      keywordHitProp content := by
  simp [List.any_eq_true, containsSub_iff, keywordHitProp]

lemma processFiles_keys_subset :
    ∀ (files : List (Int × Option (List (Option (List Char))))) (key : String),
      key ∈ (processFiles files).1.map Prod.fst →
        key ∈ files.map (fun e => toString e.1) := by
  intro files
  induction files with
  | nil => simp [processFiles]
  | cons f rest ih =>
    obtain ⟨year, doc⟩ := f
    intro key hk
    simp only [processFiles] at hk
    split at hk
    · split at hk
      · rw [List.map_cons, List.mem_cons] at hk
        rcases hk with hk | hk
        · simp [hk]
        · exact List.mem_cons.mpr (Or.inr (ih key hk))
      · exact List.mem_cons.mpr (Or.inr (ih key hk))
    · exact List.mem_cons.mpr (Or.inr (ih key hk))

lemma isWS_cases {c : Char} (h : isWS c = true) :
    c = ' ' ∨ c = '\t' ∨ c = '\n' ∨ c = '\r' ∨ c = '\x0b' ∨ c = '\x0c' := by
  have h2 := h
  simp only [isWS, Bool.or_eq_true, beq_iff_eq] at h2
  tauto

lemma isWS_false_of_digit {c : Char} (h : isDigitC c = true) : isWS c = false := by
  cases hw : isWS c
  · rfl
  · rcases isWS_cases hw with rfl | rfl | rfl | rfl | rfl | rfl <;>
      exact absurd h (by decide)

lemma isWS_false_of_toLower_a {c : Char} (h : c.toLower = 'a') : isWS c = false := by
  cases hw : isWS c
  · rfl
  · rcases isWS_cases hw with rfl | rfl | rfl | rfl | rfl | rfl <;>
      exact absurd h (by decide)

lemma dropWS_decomp : ∀ s : List Char,
    ∃ w, (∀ c ∈ w, isWS c = true) ∧ s = w ++ dropWS s := by
  intro s
  induction s with
  | nil => exact ⟨[], by simp, rfl⟩
  | cons c r ih =>
    cases hc : isWS c with
    | true =>
      obtain ⟨w, hw, hr⟩ := ih
      refine ⟨c :: w, ?_, ?_⟩
      · intro x hx
        rcases List.mem_cons.mp hx with rfl | hx
        · exact hc
        · exact hw x hx
      · simp only [dropWS, hc, if_pos, List.cons_append]
        exact congrArg (c :: ·) hr
    | false => exact ⟨[], by simp, by simp [dropWS, hc]⟩

lemma dropWS_append_ws {w : List Char} (hw : ∀ c ∈ w, isWS c = true) :
    ∀ s, dropWS (w ++ s) = dropWS s := by
  induction w with
  | nil => intro s; rfl
  | cons c w ih =>
    intro s
    have hc : isWS c = true := hw c (by simp)
    show dropWS (c :: (w ++ s)) = dropWS s
    rw [dropWS, if_pos hc]
    exact ih (fun x hx => hw x (by simp [hx])) s

lemma dropWS_cons_not {c : Char} (hc : isWS c = false) (r : List Char) :
    dropWS (c :: r) = c :: r := by
  simp [dropWS, hc]

lemma ws1_some {s r : List Char} (h : ws1 s = some r) :
    ∃ u, u ≠ [] ∧ (∀ c ∈ u, isWS c = true) ∧ s = u ++ r := by
  cases s with
  | nil => exact absurd h (by simp [ws1])
  | cons c r0 =>
    rw [ws1] at h
    cases hc : isWS c with
    | false => rw [hc] at h; exact absurd h (by simp)
    | true =>
      rw [hc, if_pos rfl, Option.some.injEq] at h
      obtain ⟨w, hw, hr⟩ := dropWS_decomp r0
      refine ⟨c :: w, by simp, ?_, ?_⟩
      · intro x hx
        rcases List.mem_cons.mp hx with rfl | hx
        · exact hc
        · exact hw x hx
      · rw [← h, List.cons_append]
        exact congrArg (c :: ·) hr

lemma ws1_append {u : List Char} (hne : u ≠ []) (hws : ∀ c ∈ u, isWS c = true)
    {c0 : Char} (hc0 : isWS c0 = false) (r : List Char) :
    ws1 (u ++ c0 :: r) = some (c0 :: r) := by
  cases u with
  | nil => exact absurd rfl hne
  | cons c u1 =>
    show ws1 (c :: (u1 ++ c0 :: r)) = some (c0 :: r)
    rw [ws1, if_pos (hws c (by simp))]
    rw [dropWS_append_ws (fun x hx => hws x (by simp [hx]))]
    rw [dropWS_cons_not hc0]

lemma stripCI_some : ∀ (lit s r : List Char), stripCI lit s = some r →
    ∃ a, s = a ++ r ∧ a.map Char.toLower = lit.map Char.toLower := by
  intro lit
  induction lit with
  | nil =>
    intro s r h
    rw [stripCI, Option.some.injEq] at h
    exact ⟨[], by simp [h], by simp⟩
  | cons l ls ih =>
    intro s r h
    cases s with
    | nil => exact absurd h (by simp [stripCI])
    | cons b bs =>
      rw [stripCI] at h
      cases hlb : lowEq l b with
      | false => rw [hlb] at h; exact absurd h (by simp)
      | true =>
        rw [hlb, if_pos rfl] at h
        obtain ⟨a0, hs, hmap⟩ := ih bs r h
        refine ⟨b :: a0, by simp [hs], ?_⟩
        have : l.toLower = b.toLower := by simpa [lowEq] using hlb
        simp [hmap, this]

lemma stripCI_append : ∀ (lit a : List Char),
    a.map Char.toLower = lit.map Char.toLower →
    ∀ r, stripCI lit (a ++ r) = some r := by
  intro lit
  induction lit with
  | nil =>
    intro a ha r
    rw [List.map_nil, List.map_eq_nil_iff] at ha
    subst ha
    rfl
  | cons l ls ih =>
    intro a ha r
    cases a with
    | nil => exact absurd ha (by simp)
    | cons b bs =>
      rw [List.map_cons, List.map_cons, List.cons.injEq] at ha
      show stripCI (l :: ls) (b :: (bs ++ r)) = some r
      rw [stripCI, if_pos (by simp [lowEq, ha.1])]
      exact ih bs ha.2 r

lemma spanDigits_decomp : ∀ s : List Char, s = (spanDigits s).1 ++ (spanDigits s).2 := by
  intro s
  induction s with
  | nil => rfl
  | cons c r ih =>
    cases hc : isDigitC c with
    | true =>
      simp only [spanDigits, hc, if_pos, List.cons_append]
      exact congrArg (c :: ·) ih
    | false => simp [spanDigits, hc]

lemma spanDigits_append {d : List Char} (hd : ∀ c ∈ d, isDigitC c = true)
    {p : Char} (hp : isDigitC p = false) (x : List Char) :
    spanDigits (d ++ p :: x) = (d, p :: x) := by
  induction d with
  | nil => simp [spanDigits, hp]
  | cons c d1 ih =>
    show spanDigits (c :: (d1 ++ p :: x)) = _
    rw [spanDigits]
    rw [if_pos (hd c (by simp))]
    rw [ih (fun y hy => hd y (by simp [hy]))]

lemma digits1_decomp {s d r : List Char} (h : digits1 s = some (d, r)) :
    s = d ++ r ∧ d ≠ [] ∧ ∀ c ∈ d, isDigitC c = true := by
  obtain ⟨hne, hdig⟩ := digits1_some h
  refine ⟨?_, hne, hdig⟩
  unfold digits1 at h
  split at h
  · exact absurd h (by simp)
  · next heq =>
    rw [Option.some.injEq, Prod.mk.injEq] at h
    obtain ⟨rfl, rfl⟩ := h
    have := spanDigits_decomp s
    rw [heq] at this
    exact this

lemma digits1_isSome_head {c : Char} (hc : isDigitC c = true) (r : List Char) :
    (digits1 (c :: r)).isSome = true := by
  unfold digits1
  rw [spanDigits, if_pos hc]
  rcases spanDigits r with ⟨t, rest⟩
  rfl

lemma isWS_false_of_letter {c : Char} (h : isLetterCI c = true) : isWS c = false := by
  cases hw : isWS c
  · rfl
  · rcases isWS_cases hw with rfl | rfl | rfl | rfl | rfl | rfl <;>
      exact absurd h (by decide)

lemma headNumericAlt_spec {s1 : List Char} {p : Option (List Char) × Option (List Char)}
    (h : headNumericAlt s1 = some p) :
    ∃ d q u c0 rest, s1 = d ++ q :: (u ++ c0 :: rest) ∧ d ≠ [] ∧
      (∀ c ∈ d, isDigitC c = true) ∧ (q = '.' ∨ q = ')') ∧ u ≠ [] ∧
      (∀ c ∈ u, isWS c = true) ∧ isLetterCI c0 = true := by
  unfold headNumericAlt at h
  split at h
  · next d r heq1 =>
    split at h
    · next c r2 =>
      split at h
      · next hcq =>
        split at h
        · next r3 heq2 =>
          split at h
          · next c2 rr =>
            split at h
            · next hc2 =>
              obtain ⟨hs, hdne, hdig⟩ := digits1_decomp heq1
              obtain ⟨u, hune, huws, hr2⟩ := ws1_some heq2
              refine ⟨d, c, u, c2, rr, ?_, hdne, hdig, by simpa using hcq, hune, huws, hc2⟩
              rw [hs, hr2]
            · exact absurd h (by simp)
          · exact absurd h (by simp)
        · exact absurd h (by simp)
      · exact absurd h (by simp)
    · exact absurd h (by simp)
  · exact absurd h (by simp)

lemma headNumericMain_spec {s1 : List Char} {p : Option (List Char) × Option (List Char)}
    (h : headNumericMain s1 = some p) :
    (∃ a u d rest, s1 = a ++ u ++ d ++ rest ∧ a.map Char.toLower = "article".data ∧
      u ≠ [] ∧ (∀ c ∈ u, isWS c = true) ∧ d ≠ [] ∧ (∀ c ∈ d, isDigitC c = true)) ∨
    (∃ d q u c0 rest, s1 = d ++ q :: (u ++ c0 :: rest) ∧ d ≠ [] ∧
      (∀ c ∈ d, isDigitC c = true) ∧ (q = '.' ∨ q = ')') ∧ u ≠ [] ∧
      (∀ c ∈ u, isWS c = true) ∧ isLetterCI c0 = true) := by
  unfold headNumericMain at h
  split at h
  · next r1 heq1 =>
    split at h
    · next r2 heq2 =>
      split at h
      · next d rr heq3 =>
        left
        obtain ⟨a, hs1, hmap⟩ := stripCI_some _ _ _ heq1
        obtain ⟨u, hune, huws, hr1⟩ := ws1_some heq2
        obtain ⟨hr2, hdne, hdig⟩ := digits1_decomp heq3
        refine ⟨a, u, d, rr, ?_, ?_, hune, huws, hdne, hdig⟩
        · rw [hs1, hr1, hr2]
          simp [List.append_assoc]
        · exact hmap.trans (by decide)
      · exact Or.inr (headNumericAlt_spec h)
    · exact Or.inr (headNumericAlt_spec h)
  · exact Or.inr (headNumericAlt_spec h)

lemma headNumericAlt_of_spec {d : List Char} {q : Char} {u : List Char} {c0 : Char}
    (rest : List Char) (hdne : d ≠ []) (hdig : ∀ c ∈ d, isDigitC c = true)
    (hq : q = '.' ∨ q = ')') (hune : u ≠ []) (huws : ∀ c ∈ u, isWS c = true)
    (hc0 : isLetterCI c0 = true) :
    (headNumericAlt (d ++ q :: (u ++ c0 :: rest))).isSome = true := by
  have hqd : isDigitC q = false := by rcases hq with rfl | rfl <;> decide
  have hd1 : digits1 (d ++ q :: (u ++ c0 :: rest)) = some (d, q :: (u ++ c0 :: rest)) := by
    unfold digits1
    rw [spanDigits_append hdig hqd]
    cases d with
    | nil => exact absurd rfl hdne
    | cons c d1 => rfl
  have hq2 : (q == '.' || q == ')') = true := by rcases hq with rfl | rfl <;> decide
  have hws : ws1 (u ++ c0 :: rest) = some (c0 :: rest) :=
    ws1_append hune huws (isWS_false_of_letter hc0) rest
  simp only [headNumericAlt, hd1, hq2, if_pos, hws, hc0]
  rfl

lemma headNumericMain_isSome_of_alt {s1 : List Char}
    (h : (headNumericAlt s1).isSome = true) :
    (headNumericMain s1).isSome = true := by
  unfold headNumericMain
  split
  · split
    · split
      · rfl
      · exact h
    · exact h
  · exact h

lemma headNumericMain_of_spec_left {a u d rest : List Char}
    (hmap : a.map Char.toLower = "article".data) (hune : u ≠ [])
    (huws : ∀ c ∈ u, isWS c = true) (hdne : d ≠ [])
    (hdig : ∀ c ∈ d, isDigitC c = true) :
    (headNumericMain (a ++ (u ++ (d ++ rest)))).isSome = true := by
  cases d with
  | nil => exact absurd rfl hdne
  | cons cd d1 =>
    have h1 : stripCI "ARTICLE".data (a ++ (u ++ (cd :: d1 ++ rest))) =
        some (u ++ (cd :: d1 ++ rest)) :=
      stripCI_append _ a (hmap.trans (by decide)) _
    have h2 : ws1 (u ++ (cd :: d1 ++ rest)) = some (cd :: (d1 ++ rest)) := by
      have := ws1_append hune huws (isWS_false_of_digit (hdig cd (by simp))) (d1 ++ rest)
      simpa using this
    have h3 := digits1_isSome_head (hdig cd (by simp)) (d1 ++ rest)
    simp only [headNumericMain, h1, h2]
    rcases hd : digits1 (cd :: (d1 ++ rest)) with _ | ⟨dd, rr⟩
    · rw [hd] at h3
      exact absurd h3 (by simp)
    · rfl

lemma headResult_noMatch_iff {year : Int} (hb : (year == 2026) = false) (line : List Char) :
    headResultFor year line = HeadResult.noMatch ↔ headNumericGroups line = none := by
  unfold headResultFor
  rw [hb]
  simp only [Bool.false_eq_true, if_false]
  cases hg : headNumericGroups line with
  | none => simp
  | some p =>
    obtain ⟨g1, g2⟩ := p
    simp only [Option.some.injEq]
    constructor
    · intro hk
      rcases hmk : (if pyTruthy g1 then g1 else g2) with _ | k
      · rw [hmk] at hk
        exact absurd hk (by simp)
      · rw [hmk] at hk
        dsimp only at hk
        split at hk <;> exact absurd hk (by simp)
    · intro hk
      exact absurd hk (by simp)

/-!
## Claim theorems
-/

/-- C1: for every article text, `total_sets_allocated` is computed by
trying the three allocation strategies in the fixed order (a) near-
adjacent `allocated … sets`, (b) `use no more than … sets`, (c) broad-
span `allocated … sets`, and equals the normalized value of the first
strategy whose match normalizes to a positive integer; a strategy whose
match normalizes to zero is skipped in favour of the next, and the field
is 0 when no strategy yields a positive value. -/
theorem c1_total_sets_first_positive (text : List Char) :
    (extract_tyre_data text).total_sets_allocated = firstPositiveAlloc text := by
  show allocLoop allocPatterns text = _
  rw [allocLoop_eq_filter]
  simp [allocPatterns, firstPositiveAlloc]

/-- C2: for every document (any year, any page/line sequence), the lines
preceding the first line that matches the year's active heading pattern
are discarded: the segmenter's result is exactly the result of running it
on the line sequence with that prefix removed, so those lines are
attributed to no article and appear in no article's accumulated text. -/
theorem c2_prefix_discarded (year : Int) (pages : List (Option (List Char))) :
    parse_regulations year (some pages) =
      runSeg year ((docLines pages).dropWhile (fun l => !headingMatches year l)) := by
  unfold runSeg
  show (match segPages year { articles := [], current := none } pages with
    | some st => st.articles
    | none => []) = _
  rw [segPages_eq_docLines, segLines_dropWhile_start]

/-- C3: the Locator returns the identifier of the first article, in the
collection's insertion order, whose first 1000 characters of text,
lower-cased, contain one of the fixed keywords as a substring, and `none`
exactly when no article matches; in particular, when several articles
match, the first by insertion order always wins. -/
theorem c3_locator_first_match (l : List (List Char × List Char)) (a : List Char) :
    (find_tyre_article_id l = some a ↔
      ∃ pre c post, l = pre ++ (a, c) :: post ∧ keywordHitProp c ∧
        ∀ p ∈ pre, ¬keywordHitProp p.2) ∧
      (find_tyre_article_id l = none ↔ ∀ p ∈ l, ¬keywordHitProp p.2) := by
  induction l with
  | nil =>
    constructor
    · simp [find_tyre_article_id]
    · simp [find_tyre_article_id]
  | cons hd rest ih =>
    obtain ⟨k0, c0⟩ := hd
    by_cases hP : keywordHitProp c0
    · have hb : tyreKeywords.any (fun kw => containsSub kw (headerOf c0)) = true :=
        (keywordTest_iff c0).mpr hP
      have hfind : find_tyre_article_id ((k0, c0) :: rest) = some k0 := by
        simp [find_tyre_article_id, hb]
      refine ⟨⟨?_, ?_⟩, ⟨?_, ?_⟩⟩
      · intro h
        rw [hfind, Option.some.injEq] at h
        subst h
        exact ⟨[], c0, rest, by simp, hP, by simp⟩
      · rintro ⟨pre, c, post, heq, hc, hpre⟩
        cases pre with
        | nil =>
          rw [List.nil_append] at heq
          rw [List.cons.injEq, Prod.mk.injEq] at heq
          rw [hfind, heq.1.1]
        | cons q qs =>
          rw [List.cons_append, List.cons.injEq] at heq
          exact absurd (heq.1 ▸ hpre q (by simp)) (by simpa using hP)
      · intro h
        rw [hfind] at h
        exact absurd h (by simp)
      · intro hall
        exact absurd hP (by simpa using hall (k0, c0) (by simp))
    · have hb : tyreKeywords.any (fun kw => containsSub kw (headerOf c0)) = false := by
        rcases hbb : tyreKeywords.any (fun kw => containsSub kw (headerOf c0)) with _ | _
        · rfl
        · exact absurd ((keywordTest_iff c0).mp hbb) hP
      have hfind : find_tyre_article_id ((k0, c0) :: rest) = find_tyre_article_id rest := by
        simp [find_tyre_article_id, hb]
      rw [hfind]
      refine ⟨⟨?_, ?_⟩, ?_⟩
      · intro h
        obtain ⟨pre, c, post, heq, hc, hpre⟩ := (ih.1.mp h)
        refine ⟨(k0, c0) :: pre, c, post, by rw [heq, List.cons_append], hc, ?_⟩
        intro p hp
        rcases List.mem_cons.mp hp with rfl | hp
        · exact hP
        · exact hpre p hp
      · rintro ⟨pre, c, post, heq, hc, hpre⟩
        cases pre with
        | nil =>
          rw [List.nil_append, List.cons.injEq, Prod.mk.injEq] at heq
          exact absurd (heq.1.2 ▸ hc) hP
        | cons q qs =>
          rw [List.cons_append, List.cons.injEq] at heq
          exact ih.1.mpr ⟨qs, c, post, heq.2, hc, fun p hp => hpre p (by simp [hp])⟩
      · rw [ih.2]
        constructor
        · intro hall p hp
          rcases List.mem_cons.mp hp with rfl | hp
          · exact hP
          · exact hall p hp
        · intro hall p hp
          exact hall p (by simp [hp])

/-- C4 counterexample: the line `24. supply` starts a new article for a
non-2026 year (the code's `re.IGNORECASE` applies to the `[A-Z]` class,
so the lower-case word matches), yet the claim's numeric heading form —
case-insensitivity restricted to the `ARTICLE` keyword, hence a
capitalized word after the digit group — rejects it.  The claim's
"exactly when" is therefore false at this input. -/
theorem c4_counterexample :
    headResultFor 2024 "24. supply".data = HeadResult.key "24".data ∧
      specNumericHeadingStrict "24. supply".data = false :=
  ⟨rfl, rfl⟩

/-- C4 (amended): for every non-sectioned (non-2026) year, a line starts
a new article exactly when it matches the numeric heading form — either
`ARTICLE` followed by whitespace and digits, or a leading digit group
followed by a period or parenthesis, whitespace, and a letter — with
case-insensitivity applying to the whole pattern, so the word after the
digit group may begin with a letter of either case. -/
theorem c4_numeric_heading_ci (year : Int) (hy : year ≠ 2026) (line : List Char) :
    (∃ k, headResultFor year line = HeadResult.key k) ↔ specNumericHeadingCI line := by
  have hb : (year == 2026) = false := by simpa using hy
  constructor
  · rintro ⟨k, hk⟩
    have hg : headNumericGroups line ≠ none := by
      intro hnone
      rw [← headResult_noMatch_iff hb line] at hnone
      rw [hnone] at hk
      exact absurd hk (by simp)
    rcases hgs : headNumericGroups line with _ | p
    · exact absurd hgs hg
    · have hmain : headNumericMain (dropWS line) = some p := hgs
      obtain ⟨w0, hw0, hline⟩ := dropWS_decomp line
      rcases headNumericMain_spec hmain with
        ⟨a, u, d, rest, hs1, hmap, hune, huws, hdne, hdig⟩ |
        ⟨d, q, u, c0, rest, hs1, hdne, hdig, hq, hune, huws, hc0⟩
      · exact Or.inl ⟨w0, a, u, d, rest,
          by rw [hline, hs1]; simp [List.append_assoc], hw0, hmap, hune, huws, hdne, hdig⟩
      · exact Or.inr ⟨w0, d, q, u, c0, rest,
          by rw [hline, hs1]; simp [List.append_assoc], hw0, hdne, hdig, hq, hune, huws, hc0⟩
  · intro hspec
    have hsome : (headNumericGroups line).isSome = true := by
      rcases hspec with
        ⟨w, a, u, d, rest, hline, hw, hmap, hune, huws, hdne, hdig⟩ |
        ⟨w, d, q, u, c0, rest, hline, hw, hdne, hdig, hq, hune, huws, hc0⟩
      · have hahead : ∃ ca a1, a = ca :: a1 ∧ isWS ca = false := by
          cases a with
          | nil => exact absurd hmap (by simp)
          | cons ca a1 =>
            refine ⟨ca, a1, rfl, isWS_false_of_toLower_a ?_⟩
            have := congrArg (List.headD · 'x') hmap
            simpa using this
        obtain ⟨ca, a1, rfl, hca⟩ := hahead
        have hdrop : dropWS line = (ca :: a1) ++ (u ++ (d ++ rest)) := by
          rw [hline]
          rw [show w ++ (ca :: a1) ++ u ++ d ++ rest =
            w ++ ((ca :: a1) ++ (u ++ (d ++ rest))) by simp [List.append_assoc]]
          rw [dropWS_append_ws hw]
          exact dropWS_cons_not hca _
        show (headNumericMain (dropWS line)).isSome = true
        rw [hdrop]
        exact headNumericMain_of_spec_left hmap hune huws hdne hdig
      · have hdhead : ∃ cd d1, d = cd :: d1 ∧ isWS cd = false := by
          cases d with
          | nil => exact absurd rfl hdne
          | cons cd d1 =>
            exact ⟨cd, d1, rfl, isWS_false_of_digit (hdig cd (by simp))⟩
        obtain ⟨cd, d1, rfl, hcd⟩ := hdhead
        have hdrop : dropWS line = (cd :: d1) ++ q :: (u ++ c0 :: rest) := by
          rw [hline]
          rw [show w ++ (cd :: d1) ++ q :: (u ++ c0 :: rest) =
            w ++ ((cd :: d1) ++ q :: (u ++ c0 :: rest)) by simp [List.append_assoc]]
          rw [dropWS_append_ws hw]
          exact dropWS_cons_not hcd _
        show (headNumericMain (dropWS line)).isSome = true
        rw [hdrop]
        exact headNumericMain_isSome_of_alt
          (headNumericAlt_of_spec rest hdne hdig hq hune huws hc0)
    rcases headResult_cases year line with hnm | ⟨k, hk, _⟩
    · rw [headResult_noMatch_iff hb line] at hnm
      rw [hnm] at hsome
      exact absurd hsome (by simp)
    · exact ⟨k, hk⟩

/-- Witness for the amended C4 at year 2024 and line `24. SUPPLY`. -/
theorem c4_numeric_heading_ci_witness :
    (∃ k, headResultFor 2024 "24. SUPPLY".data = HeadResult.key k) ↔
      specNumericHeadingCI "24. SUPPLY".data :=
  c4_numeric_heading_ci 2024 (by decide) "24. SUPPLY".data

/-- C5: every occurrence of the same heading identifier accumulates into
a single article: the text stored under key `k` is exactly the
concatenation, in document order, of `line + "\n"` for every line
attributed to `k` (every heading line with key `k` and every following
body line while `k` is current); in particular a later heading
occurrence never overwrites or resets the accumulated text, and `k` is
absent only when no line was ever attributed to it. -/
theorem c5_same_key_accumulates (year : Int) (pages : List (Option (List Char))) (k : List Char) :
    lookupArticle (parse_regulations year (some pages)) k =
      mergeTexts none (contribs year k none (docLines pages)) := by
  have hparse : parse_regulations year (some pages) =
      (segLinesT year { articles := [], current := none } (docLines pages)).articles := by
    show (match segPages year { articles := [], current := none } pages with
      | some st => st.articles
      | none => []) = _
    rw [segPages_eq_docLines, segLines_eq_total]
  rw [hparse, seg_accum]
  rfl

/-- C6: two article texts identical except that one phrases the
allocation as `allocated thirteen (13) sets` and the other as
`allocated 13 sets`, neither containing an allocation phrasing that
Strategy (a) would match earlier in the text, both extract
`total_sets_allocated = 13` (normalizer consistency across the word and
digit phrasings). -/
theorem c6_normalizer_consistency (pre post : List Char)
    (h1 : ∀ n, n < pre.length →
      attemptAllocA (pre.drop n ++ ("allocated thirteen (13) sets".data ++ post)) = none)
    (h2 : ∀ n, n < pre.length →
      attemptAllocA (pre.drop n ++ ("allocated 13 sets".data ++ post)) = none) :
    (extract_tyre_data (pre ++ ("allocated thirteen (13) sets".data ++ post))).total_sets_allocated = 13 ∧
      (extract_tyre_data (pre ++ ("allocated 13 sets".data ++ post))).total_sets_allocated = 13 := by
  have t1 : searchOpt attemptAllocA (pre ++ ("allocated thirteen (13) sets".data ++ post)) =
      some "thirteen".data := by
    rw [searchOpt_skip attemptAllocA pre _ h1]
    exact searchOpt_of_attempt _ _ _ (attemptAllocA_word_sets post)
  have t2 : searchOpt attemptAllocA (pre ++ ("allocated 13 sets".data ++ post)) =
      some "13".data := by
    rw [searchOpt_skip attemptAllocA pre _ h2]
    exact searchOpt_of_attempt _ _ _ (attemptAllocA_digit_sets post)
  constructor
  · show allocLoop allocPatterns _ = 13
    simp only [allocPatterns, allocLoop, t1]
    norm_num [show text_to_int "thirteen".data = 13 from rfl]
  · show allocLoop allocPatterns _ = 13
    simp only [allocPatterns, allocLoop, t2]
    norm_num [show text_to_int "13".data = 13 from rfl]

/-- Witness for C6 at `pre = []`, `post = []`. -/
theorem c6_normalizer_consistency_witness :
    (extract_tyre_data (([] : List Char) ++ ("allocated thirteen (13) sets".data ++ []))).total_sets_allocated = 13 ∧
      (extract_tyre_data (([] : List Char) ++ ("allocated 13 sets".data ++ []))).total_sets_allocated = 13 :=
  c6_normalizer_consistency [] []
    (fun n hn => absurd hn (Nat.not_lt_zero n))
    (fun n hn => absurd hn (Nat.not_lt_zero n))

/-- C7: a document whose text cannot be obtained yields the empty
article collection, its year is absent from the final database, and the
remaining documents are processed exactly as if the failing one were not
there — the failure is recoverable and never fatal to the batch. -/
theorem c7_read_failure_recovered (y : Int)
    (pre post : List (Int × Option (List (Option (List Char)))))
    (h : toString y ∉ (pre ++ post).map (fun e => toString e.1)) :
    parse_regulations y none = [] ∧
      processFiles (pre ++ (y, none) :: post) = processFiles (pre ++ post) ∧
      toString y ∉ (processFiles (pre ++ (y, none) :: post)).1.map Prod.fst := by
  have heq : processFiles (pre ++ (y, none) :: post) = processFiles (pre ++ post) := by
    clear h
    induction pre with
    | nil => rfl
    | cons f pre ih =>
      obtain ⟨year, doc⟩ := f
      show processFiles ((year, doc) :: (pre ++ (y, none) :: post)) =
        processFiles ((year, doc) :: (pre ++ post))
      simp only [processFiles]
      rw [ih]
  refine ⟨rfl, heq, ?_⟩
  rw [heq]
  intro hmem
  exact h (processFiles_keys_subset _ _ hmem)

/-- Witness for C7: year 2020 fails to read in a two-document batch. -/
theorem c7_read_failure_recovered_witness :
    parse_regulations 2020 none = [] ∧
      processFiles ([(2018, some [])] ++ (2020, none) :: []) =
        processFiles ([(2018, some [])] ++ []) ∧
      "2020" ∉ (processFiles ([(2018, some [])] ++ (2020, none) :: [])).1.map Prod.fst :=
  c7_read_failure_recovered 2020 [(2018, some [])] [] (by decide)

/-- C8: when the Locator succeeds but every allocation strategy misses
(the extracted `total_sets_allocated` is 0), the year's record is still
inserted into the database — keyed by the year, carrying the located
article and the zero field — and the zero-allocation validation warning
is surfaced for that year; processing of the rest is unaffected. -/
theorem c8_extraction_miss_still_inserted (y : Int)
    (doc : Option (List (Option (List Char))))
    (rest : List (Int × Option (List (Option (List Char)))))
    (tid content : List Char)
    (hfind : find_tyre_article_id (parse_regulations y doc) = some tid)
    (hlook : lookupArticle (parse_regulations y doc) tid = some content)
    (hzero : (extract_tyre_data content).total_sets_allocated = 0) :
    processFiles ((y, doc) :: rest) =
      ((toString y, mkRecord (extract_tyre_data content) tid) :: (processFiles rest).1,
        toString y :: (processFiles rest).2) ∧
      (mkRecord (extract_tyre_data content) tid).total_sets_allocated = 0 := by
  refine ⟨?_, hzero⟩
  show (match find_tyre_article_id (parse_regulations y doc) with
    | some tid =>
      match lookupArticle (parse_regulations y doc) tid with
      | some content =>
        ((toString y, mkRecord (extract_tyre_data content) tid) :: (processFiles rest).1,
          (if (extract_tyre_data content).total_sets_allocated = 0
            then [toString y] else []) ++ (processFiles rest).2)
      | none => processFiles rest
    | none => processFiles rest) = _
  rw [hfind]
  show (match lookupArticle (parse_regulations y doc) tid with
    | some content =>
      ((toString y, mkRecord (extract_tyre_data content) tid) :: (processFiles rest).1,
        (if (extract_tyre_data content).total_sets_allocated = 0
          then [toString y] else []) ++ (processFiles rest).2)
    | none => processFiles rest) = _
  rw [hlook]
  show ((toString y, mkRecord (extract_tyre_data content) tid) :: (processFiles rest).1,
    (if (extract_tyre_data content).total_sets_allocated = 0
      then [toString y] else []) ++ (processFiles rest).2) = _
  rw [if_pos hzero]
  rfl

/-- Witness for C8: a document whose tyre article is located but
contains no allocation phrasing. -/
theorem c8_extraction_miss_still_inserted_witness :
    processFiles [(2019, some [some "24. SUPPLY OF TYRES".data])] =
      (([("2019", mkRecord (extract_tyre_data "24. SUPPLY OF TYRES\n".data) "24".data)] :
          List (String × DBRecord)),
        ["2019"]) ∧
      (mkRecord (extract_tyre_data "24. SUPPLY OF TYRES\n".data) "24".data).total_sets_allocated = 0 :=
  c8_extraction_miss_still_inserted 2019 (some [some "24. SUPPLY OF TYRES".data]) []
    "24".data "24. SUPPLY OF TYRES\n".data rfl rfl rfl

/-- C9: the heading-key extraction is total — a sectioned (2026) match
always carries a non-empty first capture group, so the out-of-range
`group(2)` access is unreachable; a numeric match carries exactly one
non-empty digit-string group; hence no branch ends in the `IndexError`
(`err`) or falsy-key (`badKey`) outcome, and every stored article key is
a non-empty string. -/
theorem c9_group_extraction_total (line : List Char) :
    (∀ g, head2026Group line = some g →
        g ≠ [] ∧ headResultFor 2026 line = HeadResult.key g) ∧
      (∀ g1 g2, headNumericGroups line = some (g1, g2) →
        ∃ d, d ≠ [] ∧ (∀ c ∈ d, isDigitC c = true) ∧
          ((g1 = some d ∧ g2 = none) ∨ (g1 = none ∧ g2 = some d))) ∧
      (∀ year : Int, headResultFor year line ≠ HeadResult.err ∧
        headResultFor year line ≠ HeadResult.badKey) ∧
      (∀ (year : Int) (k : List Char), headResultFor year line = HeadResult.key k → k ≠ []) := by
  refine ⟨?_, fun g1 g2 h => headNumericGroups_some h, ?_, ?_⟩
  · intro g h
    have hne := head2026Group_some h
    refine ⟨hne, ?_⟩
    simp [headResultFor, h, pyTruthy, hne]
  · intro year
    rcases headResult_cases year line with h | ⟨k, h, _⟩ <;> simp [h]
  · intro year k h
    rcases headResult_cases year line with h2 | ⟨k2, h2, hne⟩
    · rw [h2] at h
      exact absurd h (by simp)
    · rw [h2] at h
      rw [HeadResult.key.injEq] at h
      exact h ▸ hne

/-- Witness for C9 at the 2026 heading `ARTICLE B6` and the numeric
heading `24. SUPPLY`. -/
theorem c9_group_extraction_total_witness :
    ("B6".data ≠ [] ∧ headResultFor 2026 "ARTICLE B6".data = HeadResult.key "B6".data) ∧
      (∃ d, d ≠ [] ∧ (∀ c ∈ d, isDigitC c = true) ∧
        (((none : Option (List Char)) = some d ∧ some "24".data = none) ∨
          ((none : Option (List Char)) = none ∧ some "24".data = some d))) :=
  ⟨(c9_group_extraction_total "ARTICLE B6".data).1 "B6".data rfl,
   (c9_group_extraction_total "24. SUPPLY".data).2.1 none (some "24".data) rfl⟩

/-- C10: both integer fields of the extractor's record always lie in the
range 0..14 — they are only ever assigned from the textual-number
normalizer, whose codomain is contained in that range. -/
theorem c10_fields_range (text : List Char) :
    0 ≤ (extract_tyre_data text).mandatory_dry_compounds ∧
      (extract_tyre_data text).mandatory_dry_compounds ≤ 14 ∧
      0 ≤ (extract_tyre_data text).total_sets_allocated ∧
      (extract_tyre_data text).total_sets_allocated ≤ 14 := by
  have htot := allocLoop_bounds allocPatterns text
  have hfield : (extract_tyre_data text).mandatory_dry_compounds =
      (match searchOpt attemptUsage text with
       | some w => text_to_int w
       | none => (0 : Int)) := rfl
  have hman : 0 ≤ (extract_tyre_data text).mandatory_dry_compounds ∧
      (extract_tyre_data text).mandatory_dry_compounds ≤ 14 := by
    rw [hfield]
    cases searchOpt attemptUsage text with
    | none => simp
    | some w => simpa using text_to_int_bounds w
  exact ⟨hman.1, hman.2, htot.1, htot.2⟩

end Scrape
